import Mathlib

/-!
# Verification of the Cosmos DB migration tool

A shallow embedding, in Lean 4, of the document-migration engine found in
`src/migration.py` and `src/sanitizer.py` of the repository, together with
theorems settling the specification's claims about it.

Two models are used:

* a *value model* (`JVal`), in which Python dictionaries are insertion-ordered
  association lists and in-place mutation is rendered as rebinding — faithful
  for everything observable by the migration loop (counters, store contents,
  written bodies), because no step of the loop reads a document again after
  handing it to a mutating helper;
* a *heap model* (`HVal`/`HObj`/`Heap`), with explicit addresses and sharing,
  used for the frame/aliasing claims about `remove_system_fields` and
  `sanitize_document_recursive` mutating their argument in place.

Store interactions (Cosmos `read_item` / `create_item` / `replace_item`) are
modelled functionally over the target container's document list, with a
schedule of injectable transient faults for the write path, matching the
spec's abstract `DocumentStore` collaborator.
-/

namespace CosmosMigration

/-- JSON-like Python value, as handled by the tool: `None`, booleans, numbers
(modelled as integers — no claim depends on float semantics), strings,
dictionaries (insertion-ordered association lists with string keys, as JSON
objects deserialised by the Cosmos SDK), and lists. -/
inductive JVal : Type where
  | null : JVal
  | boolean : Bool → JVal
  | num : Int → JVal
  | str : String → JVal
  | dict : List (String × JVal) → JVal
  | arr : List JVal → JVal
deriving Repr

/-- A Python dictionary in the value model: insertion-ordered association
list. Python dictionaries have unique keys; the operations below preserve
uniqueness and `dGet` returns the first binding. -/
abbrev Dict := List (String × JVal)

/-- Python `d.get(k)`: first binding of `k`, if any. -/
def dGet (d : Dict) (k : String) : Option JVal :=
  match d with
  | [] => none
  | (k', v) :: rest => if k' = k then some v else dGet rest k

/-- Python `k in d` key-membership test. -/
def dMem (d : Dict) (k : String) : Bool :=
  match d with
  | [] => false
  | (k', _) :: rest => k' = k || dMem rest k

/-- Python truthiness of a value (`if not item_id:` in the source):
`None`, `False`, `0`, `""`, `{}` and `[]` are falsy. -/
def pyFalsy : JVal → Bool
  | .null => true
  | .boolean b => !b
  | .num n => n == 0
  | .str s => s == ""
  | .dict d => d.isEmpty
  | .arr a => a.isEmpty

/-- Python `str.lower()` over the characters of the string. -/
def pyLower (s : String) : String := ⟨s.data.map Char.toLower⟩

/-- Split a character list at `'/'` separators — worker for `pySplit`. -/
def splitSlashChars : List Char → List (List Char)
  | [] => [[]]
  | c :: cs =>
    if c = '/' then [] :: splitSlashChars cs
    else
      match splitSlashChars cs with
      | g :: gs => (c :: g) :: gs
      | [] => [[c]]

/-- Python `s.split("/")`: always returns at least one piece;
`"".split("/") == [""]`. -/
def pySplit (s : String) : List String :=
  (splitSlashChars s.data).map (fun l => ⟨l⟩)

/-- Python `s.strip("/")`: remove leading and trailing runs of `'/'`. -/
def pyStripSlash (s : String) : String :=
  ⟨((s.data.dropWhile (· = '/')).reverse.dropWhile (· = '/')).reverse⟩

/-- Lexicographic order on character lists by code point (worker for
`leStr`). -/
def leChars : List Char → List Char → Bool
  | [], _ => true
  | _ :: _, [] => false
  | c :: cs, d :: ds =>
    if c.toNat == d.toNat then leChars cs ds else Nat.blt c.toNat d.toNat

/-- Total order on strings used to canonicalise dictionary key order. -/
def leStr (a b : String) : Bool := leChars a.data b.data

/-- Insert an entry into a key-sorted entry list (worker for `sortEntries`). -/
def insertEntry (e : String × JVal) : List (String × JVal) → List (String × JVal)
  | [] => [e]
  | f :: rest => if leStr e.1 f.1 then e :: f :: rest else f :: insertEntry e rest

/-- Sort dictionary entries by key. Python's `==` on dictionaries is
key-order-insensitive; comparing key-sorted canonical forms captures that. -/
def sortEntries : List (String × JVal) → List (String × JVal)
  | [] => []
  | e :: rest => insertEntry e (sortEntries rest)

mutual

/-- Canonical form for Python `==`: dictionary entries are key-sorted
(key order does not matter to `==`), list element order is kept, and a
boolean is identified with its integer value (Python: `True == 1`). -/
def canonJ : JVal → JVal
  | .null => .null
  | .boolean b => .num (if b then 1 else 0)
  | .num n => .num n
  | .str s => .str s
  | .dict es => .dict (sortEntries (canonEntries es))
  | .arr xs => .arr (canonArr xs)

/-- Canonicalise every value of an entry list. -/
def canonEntries : List (String × JVal) → List (String × JVal)
  | [] => []
  | (k, v) :: rest => (k, canonJ v) :: canonEntries rest

/-- Canonicalise every element of a list value. -/
def canonArr : List JVal → List JVal
  | [] => []
  | x :: xs => canonJ x :: canonArr xs

end

mutual

/-- Structural boolean equality on values. -/
def beqJ : JVal → JVal → Bool
  | .null, .null => true
  | .boolean a, .boolean b => a == b
  | .num a, .num b => a == b
  | .str a, .str b => a == b
  | .dict a, .dict b => beqEntries a b
  | .arr a, .arr b => beqArr a b
  | _, _ => false

/-- Structural boolean equality on entry lists (order-sensitive). -/
def beqEntries : List (String × JVal) → List (String × JVal) → Bool
  | [], [] => true
  | (k, v) :: a, (k', v') :: b => k == k' && beqJ v v' && beqEntries a b
  | _, _ => false

/-- Structural boolean equality on value lists (order-sensitive). -/
def beqArr : List JVal → List JVal → Bool
  | [], [] => true
  | x :: a, y :: b => beqJ x y && beqArr a b
  | _, _ => false

end

/-- Python `==` between two values: deep, order-insensitive for dictionary
keys, order-sensitive for lists. -/
def pyEqJ (a b : JVal) : Bool := beqJ (canonJ a) (canonJ b)

/-- Python exceptions observable in `migrate_container`:
Cosmos not-found and already-exists responses, an injected transient store
failure, and the built-in `TypeError` / `KeyError` / `IndexError` /
`AttributeError` / `NameError`, plus the `ValueError` raised on a
partition-key mismatch. -/
inductive PyErr : Type where
  | cosmosNotFound : PyErr
  | cosmosConflict : PyErr
  | transientStoreFault : PyErr
  | typeError : PyErr
  | keyError : PyErr
  | indexError : PyErr
  | attributeError : PyErr
  | nameError : PyErr
  | valueErrorPkMismatch : PyErr
deriving Repr, DecidableEq

/-- One step of the partition-key traversal loop of
`_get_partition_key_value` (migration.py lines 29-35): `value = value.get(key)`
with a break on `None`. `dict.get` of a missing key yields `None`; an explicit
stored `null` also breaks. Calling `.get` on a non-dictionary value raises
`AttributeError`, which the surrounding `except (KeyError, TypeError)` does
NOT catch, so it propagates. -/
def traversePath : JVal → List String → Except PyErr JVal
  | v, [] => .ok v
  | v, k :: ks =>
    match v with
    | .dict d =>
      match dGet d k with
      | none => .ok .null
      | some w =>
        match w with
        | .null => .ok .null
        | _ => traversePath w ks
    | _ => .error .attributeError

/-- Embeds `DataMigrator._get_partition_key_value`: extract one value per key path
by splitting the path on `/` and traversing the document. -/
def getPartitionKeyValue (item : Dict) : List String → Except PyErr (List JVal)
  | [] => .ok []
  | p :: ps =>
    match traversePath (.dict item) (pySplit p) with
    | .error e => .error e
    | .ok v =>
      match getPartitionKeyValue item ps with
      | .error e => .error e
      | .ok vs => .ok (v :: vs)

/-- The per-element validity test of migration.py line 101:
`pk_value is None or isinstance(pk_value, (dict, list)) or pk_value in ["", None]`. -/
def invalidPkValue (v : JVal) : Bool :=
  (match v with | .null => true | _ => false)
  || (match v with | .dict _ => true | .arr _ => true | _ => false)
  || pyEqJ v (.str "") || pyEqJ v .null

/-- The back-fill loop of migration.py lines 112-114: for each
`(pk_path, pk_value)` of `zip(target_pk_paths, pk_values)`, if the path
string is not a top-level key of the document, add it (Python dictionaries
append new keys at the end). -/
def backfill (item : Dict) : List (String × JVal) → Dict
  | [] => item
  | (p, v) :: rest => backfill (if dMem item p then item else item ++ [(p, v)]) rest

/-- Python subscription `x[0]` as applied at migration.py line 121 to the
stale loop variable `pk_value`: the first character of a string, the first
element of a list, `KeyError` for a dictionary (integer key), `IndexError`
when empty, `TypeError` otherwise (not subscriptable). -/
def subscript0 : JVal → Except PyErr JVal
  | .str s => if s.isEmpty then .error .indexError else .ok (.str (s.take 1))
  | .arr [] => .error .indexError
  | .arr (x :: _) => .ok x
  | .dict _ => .error .keyError
  | _ => .error .typeError

/-- Server-side partition-key extraction from a stored document body, used
by the functional store model: traverse the path, undefined on any missing
or non-mapping step. -/
def serverPath : JVal → List String → Option JVal
  | v, [] => some v
  | .dict d, k :: ks =>
    match dGet d k with
    | some w => serverPath w ks
    | none => none
  | _, _ :: _ => none

/-- Partition-key values a stored document owns, one per key path. -/
def extractDocPk (paths : List String) (d : Dict) : List (Option JVal) :=
  paths.map (fun p => serverPath (.dict d) (pySplit p))

/-- Does a stored document's extracted key list match a requested
partition-key argument? -/
def pkListMatch : List (Option JVal) → List JVal → Bool
  | [], [] => true
  | some v :: xs, a :: bs => pyEqJ v a && pkListMatch xs bs
  | _, _ => false

/-- Pairwise equality of two extracted partition-key lists. -/
def pkOptsEq : List (Option JVal) → List (Option JVal) → Bool
  | [], [] => true
  | some a :: xs, some b :: ys => pyEqJ a b && pkOptsEq xs ys
  | none :: xs, none :: ys => pkOptsEq xs ys
  | _, _ => false

/-- Does a stored document carry the requested `id`? -/
def docIdMatches (d : Dict) (idv : JVal) : Bool :=
  match dGet d "id" with
  | some w => pyEqJ w idv
  | none => false

/-- Cosmos `read_item(item=id, partition_key=arg)` over the functional
store: the document whose `id` equals the request and whose extracted
partition-key values equal the argument, if any; the SDK raises
`CosmosResourceNotFoundError` otherwise. -/
def readItem (paths : List String) (docs : List Dict) (idv : JVal)
    (arg : List JVal) : Option Dict :=
  docs.find? (fun d => docIdMatches d idv && pkListMatch (extractDocPk paths d) arg)

/-- Same `id` in the same logical partition: the uniqueness constraint
`create_item` enforces. -/
def sameIdSamePartition (paths : List String) (d body : Dict) : Bool :=
  (match dGet body "id", dGet d "id" with
   | some i, some j => pyEqJ i j
   | _, _ => false)
  && pkOptsEq (extractDocPk paths d) (extractDocPk paths body)

/-- Cosmos `create_item(body)`: conflict (`CosmosResourceExistsError`) when a
document with the same `id` and partition key exists, else append. -/
def createItem (paths : List String) (docs : List Dict) (body : Dict) :
    Except PyErr (List Dict) :=
  if docs.any (fun d => sameIdSamePartition paths d body) then .error .cosmosConflict
  else .ok (docs ++ [body])

/-- Cosmos `replace_item(item=id, body)`: replace the document with this `id`
in the partition derived from the body; `CosmosResourceNotFoundError` when
absent. -/
def replaceItem (paths : List String) (docs : List Dict) (idv : JVal)
    (body : Dict) : Except PyErr (List Dict) :=
  match docs with
  | [] => .error .cosmosNotFound
  | d :: rest =>
    if docIdMatches d idv && pkOptsEq (extractDocPk paths d) (extractDocPk paths body) then
      .ok (body :: rest)
    else
      match replaceItem paths rest idv body with
      | .ok rest' => .ok (d :: rest')
      | .error e => .error e

/-- The system metadata fields popped by `remove_system_fields`
(migration.py lines 218-221). -/
def sysFields : List String := ["_etag", "_rid", "_self", "_ts"]

mutual

/-- Value-model `remove_system_fields(doc)`: strip a dictionary (recursively
through dictionary values only), return anything else unchanged. -/
def removeSystemFields : JVal → JVal
  | .dict es => .dict (rsfEntries es)
  | v => v

/-- Value-model `remove_system_fields` on the entries of a dictionary:
system keys are dropped at this level, and the recursion of lines 224-226
descends into dictionary-valued entries. A list-valued entry triggers a
recursive call in the source, but `remove_system_fields` on a list is a
no-op (`isinstance(doc, dict)` fails and the list is returned untouched,
its elements never visited), so list values are kept as they are. The
source pops the four keys before iterating; filtering while iterating
yields the same entry list. -/
def rsfEntries : List (String × JVal) → List (String × JVal)
  | [] => []
  | (k, v) :: rest =>
    if sysFields.contains k then rsfEntries rest
    else
      match v with
      | .dict es => (k, removeSystemFields (.dict es)) :: rsfEntries rest
      | _ => (k, v) :: rsfEntries rest

end

/-- The lower-cased sensitive field names of `SANITIZE_FIELDS`
(sanitizer.py lines 6-38). -/
def ruleNames : List String :=
  ["firstname", "lastname", "fullname", "name", "ssn", "phonenumber",
   "mobilenumber", "email", "workemail", "personalemail", "address",
   "street", "city", "state", "postalcode", "zip", "jobtitle",
   "department", "dateofbirth", "managerid", "insurance", "taxid",
   "accountname", "accountnumber", "routingnumber", "line1", "line2",
   "countyname", "countyfips", "ratingarea", "payrate"]

/-- Oracle for the faker generators: the synthetic value produced for a
lower-cased field name, or `none` when the generator raises — which the
source turns into the fixed marker `"REDACTED"`. -/
abbrev FakeGen := String → Option JVal

/-- Invoke the matched rule's generator (sanitizer.py lines 52-55): the
generated value, or the fixed marker when the generator raises. -/
def ruleValue (gen : FakeGen) (k : String) : JVal :=
  match gen (pyLower k) with
  | some u => u
  | none => .str "REDACTED"

mutual

/-- Value-model `sanitize_document_recursive` (sanitizer.py lines 41-63):
in a dictionary, a field whose lower-cased name matches a rule is replaced
(rule match takes precedence over recursion), otherwise dictionary- and
list-valued fields are recursed into; every element of a list is visited. -/
def sanitizeDocumentRecursive (gen : FakeGen) : JVal → JVal
  | .dict es => .dict (sanEntries gen es)
  | .arr xs => .arr (sanArr gen xs)
  | v => v

/-- Sanitise the entries of one dictionary level. -/
def sanEntries (gen : FakeGen) : List (String × JVal) → List (String × JVal)
  | [] => []
  | (k, v) :: rest =>
    (if ruleNames.contains (pyLower k) then (k, ruleValue gen k)
     else
       match v with
       | .dict es => (k, .dict (sanEntries gen es))
       | .arr xs => (k, .arr (sanArr gen xs))
       | _ => (k, v)) :: sanEntries gen rest

/-- Sanitise every element of a list value. -/
def sanArr (gen : FakeGen) : List JVal → List JVal
  | [] => []
  | x :: xs => sanitizeDocumentRecursive gen x :: sanArr gen xs

end

/-- The four per-collection counters of `migrate_container`. -/
structure Counters where
  inserted : Nat
  updated : Nat
  skipped : Nat
  errors : Nat
deriving Repr, DecidableEq

/-- State threaded through the document loop: the counters, the target
container's documents, a trace of every body successfully handed to
`create_item` / `replace_item`, and the schedule of injectable transient
faults for write calls (the store is an external collaborator; a `true`
head makes the next write call raise a transient store error). -/
structure MigState where
  counters : Counters
  target : List Dict
  writes : List Dict
  faults : List Bool
deriving Repr

/-- Consume the next scheduled write-fault decision. -/
def popFault : List Bool → Bool × List Bool
  | [] => (false, [])
  | b :: rest => (b, rest)

/-- Embeds the `DataMigrator.__init__` configuration, plus the faker oracle used when
sanitisation is enabled. `batch_size` only sets the page-size hint of the
scan and does not affect per-document semantics. -/
structure Config where
  batchSize : Nat
  maxRetries : Nat
  sanitizeFlag : Bool
  gen : FakeGen

def incInserted (st : MigState) : MigState :=
  { st with counters := { st.counters with inserted := st.counters.inserted + 1 } }

def incUpdated (st : MigState) : MigState :=
  { st with counters := { st.counters with updated := st.counters.updated + 1 } }

def incSkipped (st : MigState) : MigState :=
  { st with counters := { st.counters with skipped := st.counters.skipped + 1 } }

def incErrors (st : MigState) : MigState :=
  { st with counters := { st.counters with errors := st.counters.errors + 1 } }

/-- The `try` block of migration.py lines 118-138 for one document:
read the target copy, strip system fields from both sides, skip when equal,
otherwise sanitise a shallow copy if enabled and replace. The raised-error
payload carries the state at raise time (faults consumed, target unchanged)
and the document as mutated so far, because the `except` handler of line 140
sees the mutated `item`. Notes on fidelity to the source:

* the `partition_key` argument of `read_item` (line 121) is the list of
  values when there is more than one, otherwise `pk_value[0]` — where
  `pk_value` is the stale last binding of the back-fill loop variable of
  line 112, subscripted at index 0;
* a `replace_item` miss raises `CosmosResourceNotFoundError` inside the
  `try`, so it lands in the same `except` branch as a `read_item` miss. -/
def tryReadCompareWrite (cfg : Config) (tPaths : List String) (st : MigState)
    (item : Dict) (itemId : JVal) (pkValues : List JVal) (lastPk : JVal) :
    Except (PyErr × MigState × Dict) MigState :=
  match (if pkValues.length > 1 then .ok pkValues
         else match subscript0 lastPk with
              | .ok v => .ok [v]
              | .error e => .error e : Except PyErr (List JVal)) with
  | .error e => .error (e, st, item)
  | .ok pkArg =>
    match readItem tPaths st.target itemId pkArg with
    | none => .error (.cosmosNotFound, st, item)
    | some targetDoc =>
      let strippedItem := rsfEntries item
      if pyEqJ (removeSystemFields (.dict targetDoc)) (.dict strippedItem) then
        .ok (incSkipped st)
      else
        let itemToWrite :=
          if cfg.sanitizeFlag then sanEntries cfg.gen strippedItem else strippedItem
        let fr := popFault st.faults
        let st1 := { st with faults := fr.2 }
        if fr.1 then .error (.transientStoreFault, st1, strippedItem)
        else
          match replaceItem tPaths st1.target itemId itemToWrite with
          | .ok newDocs =>
            .ok (incUpdated { st1 with target := newDocs,
                                        writes := st1.writes ++ [itemToWrite] })
          | .error e => .error (e, st1, strippedItem)

/-- The `except CosmosResourceNotFoundError` branch of migration.py lines
140-146: sanitise a shallow copy of the (possibly already mutated) document
if enabled, then `create_item`; a conflict or transient failure propagates. -/
def insertMissing (cfg : Config) (tPaths : List String) (st : MigState)
    (item : Dict) : Except (PyErr × MigState) MigState :=
  let itemToWrite := if cfg.sanitizeFlag then sanEntries cfg.gen item else item
  let fr := popFault st.faults
  let st1 := { st with faults := fr.2 }
  if fr.1 then .error (.transientStoreFault, st1)
  else
    match createItem tPaths st1.target itemToWrite with
    | .ok newDocs =>
      .ok (incInserted { st1 with target := newDocs,
                                   writes := st1.writes ++ [itemToWrite] })
    | .error e => .error (e, st1)

/-- One pass of the attempt loop body (lines 117-148). The loop
`for attempt in range(1, self.max_retries + 1)` ends every completed
iteration with an unconditional `break`, and no handler inside the loop
catches store errors, so the body runs at most once and any error other
than `CosmosResourceNotFoundError` propagates out of `migrate_container`. -/
def attemptItem (cfg : Config) (tPaths : List String) (st : MigState)
    (item : Dict) (itemId : JVal) (pkValues : List JVal) (lastPk : JVal) :
    Except (PyErr × MigState) MigState :=
  match tryReadCompareWrite cfg tPaths st item itemId pkValues lastPk with
  | .ok st' => .ok st'
  | .error (.cosmosNotFound, st', itemNow) => insertMissing cfg tPaths st' itemNow
  | .error (e, st', _) => .error (e, st')

/-- Processing of one source document by the loop body of migration.py
lines 91-150: missing/falsy `id` → one error and continue; partition-key
extraction (an `AttributeError` propagates); invalid values → one error and
continue; back-fill; then the attempt loop — skipped entirely when
`max_retries < 1`, because `range(1, max_retries + 1)` is empty, in which
case the document is silently passed over without touching any counter.
The stale variable `pk_value` holds the last value bound by the back-fill
loop of line 112; with no key paths at all it was never bound and line 121
would raise `NameError`. -/
def processItem (cfg : Config) (tPaths : List String) (st : MigState)
    (item0 : Dict) : Except (PyErr × MigState) MigState :=
  let itemId := (dGet item0 "id").getD .null
  if pyFalsy itemId then .ok (incErrors st)
  else
    match getPartitionKeyValue item0 tPaths with
    | .error e => .error (e, st)
    | .ok pkValues =>
      if pkValues.any invalidPkValue then .ok (incErrors st)
      else
        let item := backfill item0 (tPaths.zip pkValues)
        match (tPaths.zip pkValues).getLast? with
        | none => .error (.nameError, st)
        | some pv =>
          if 1 ≤ cfg.maxRetries then
            attemptItem cfg tPaths st item itemId pkValues pv.2
          else .ok st

/-- The document loop: process source documents in scan order, stopping
with the propagated exception on the first uncaught error. Pagination
(`by_page` with the batch-size hint and continuation token) only chunks
this same ordered sequence and is not modelled separately. -/
def runItems (cfg : Config) (tPaths : List String) :
    List Dict → MigState → Except PyErr Unit × MigState
  | [], st => (.ok (), st)
  | it :: rest, st =>
    match processItem cfg tPaths st it with
    | .ok st' => runItems cfg tPaths rest st'
    | .error (e, st') => (.error e, st')

/-- A Cosmos container as the engine sees it: the raw partition-key paths
of its metadata (`container.read()["partitionKey"]["paths"]`) and its
documents in scan order. -/
structure Container where
  pkPathsRaw : List String
  docs : List Dict

/-- Embeds `DataMigrator._get_partition_key_path`: read the paths and strip the
surrounding slashes. -/
def getPartitionKeyPath (c : Container) : List String :=
  c.pkPathsRaw.map pyStripSlash

/-- Embeds `DataMigrator.migrate_container`: compare the stripped partition-key
path lists and raise `ValueError` before touching any document when they
differ; otherwise run the document loop. The outer `except` of line 178
logs and re-raises, so errors surface unchanged. The initial count query
only feeds the progress bar and is not modelled. The returned state
exposes the target contents and write trace, also on error (partial run). -/
def migrateContainer (cfg : Config) (source target : Container)
    (faults : List Bool) : Except PyErr Counters × MigState :=
  let st0 : MigState := ⟨⟨0, 0, 0, 0⟩, target.docs, [], faults⟩
  if getPartitionKeyPath source ≠ getPartitionKeyPath target then
    (.error .valueErrorPkMismatch, st0)
  else
    match runItems cfg (getPartitionKeyPath target) source.docs st0 with
    | (.ok _, st) => (.ok st.counters, st)
    | (.error e, st) => (.error e, st)

/-- Embeds `DataMigrator.verify_migration` (migration.py lines 182-211), over the
outcomes of the two count queries: the source count is read first; any
exception in either query is caught by the surrounding handler and turned
into `(False, 0, 0)`; otherwise the counts are compared. -/
def verifyMigration (sourceCountQ targetCountQ : Except PyErr Int) :
    Bool × Int × Int :=
  match sourceCountQ with
  | .error _ => (false, 0, 0)
  | .ok s =>
    match targetCountQ with
    | .error _ => (false, 0, 0)
    | .ok t => (s == t, s, t)

mutual

/-- Written to the spec's words, for comparison with the source's
`remove_system_fields`: exclusion of the volatile system metadata fields
`_etag`, `_rid`, `_self`, `_ts` at every nesting level — "comparison is
deep", the fields are excluded "recursively" — descending through both
mappings and sequences. -/
def specStripSystemFields : JVal → JVal
  | .dict es => .dict (specStripEntries es)
  | .arr xs => .arr (specStripArr xs)
  | v => v

/-- Strip the entries of one mapping level (spec-side). -/
def specStripEntries : List (String × JVal) → List (String × JVal)
  | [] => []
  | (k, v) :: rest =>
    if sysFields.contains k then specStripEntries rest
    else (k, specStripSystemFields v) :: specStripEntries rest

/-- Strip every element of a sequence (spec-side). -/
def specStripArr : List JVal → List JVal
  | [] => []
  | x :: xs => specStripSystemFields x :: specStripArr xs

end

/-! ## Heap model

Explicit addresses and sharing, for the frame claims about
`remove_system_fields` and `sanitize_document_recursive` mutating the very
objects they are handed. Scalars are immutable values; every dictionary and
list lives on the heap behind a reference. Recursion over the heap is
fuel-bounded (Python object graphs may be cyclic); with fuel larger than
the depth of the reachable graph the traversal is exact. -/

/-- Heap-model Python value. -/
inductive HVal : Type where
  | null : HVal
  | boolean : Bool → HVal
  | num : Int → HVal
  | str : String → HVal
  | ref : Nat → HVal
deriving Repr, DecidableEq

/-- Heap-model Python object: a dictionary's entry list or a list's
element list. -/
inductive HObj : Type where
  | hdict : List (String × HVal) → HObj
  | harr : List HVal → HObj
deriving Repr, DecidableEq

/-- The heap: association list from address to object (first binding wins). -/
abbrev Heap := List (Nat × HObj)

/-- Look an address up in the heap. -/
def heapGet (h : Heap) (a : Nat) : Option HObj :=
  match h with
  | [] => none
  | (b, o) :: rest => if b = a then some o else heapGet rest a

/-- Overwrite the object at an address (append when absent). -/
def heapSet (h : Heap) (a : Nat) (o : HObj) : Heap :=
  match h with
  | [] => [(a, o)]
  | (b, o') :: rest => if b = a then (b, o) :: rest else (b, o') :: heapSet rest a o

/-- An address not yet used by the heap. -/
def freshAddr (h : Heap) : Nat :=
  (h.map Prod.fst).foldr max 0 + 1

/-- Drop the four system keys from a heap dictionary's entries —
the `pop` calls of migration.py lines 218-221. -/
def popSysH (es : List (String × HVal)) : List (String × HVal) :=
  es.filter (fun e => !(sysFields.contains e.1))

/-- Heap-model `remove_system_fields(doc)`: when `doc` is a reference to a
dictionary, pop the four system keys in place, then walk the remaining
entries left to right recursing into every value that refers to a
dictionary or list; the recursive call on a list is a no-op
(`isinstance(doc, dict)` fails and the list is returned untouched). The
function returns the very value it was given. Iterating the post-pop
snapshot of the entries equals Python's iteration over the live
dictionary: revisits can only pop system keys, which the snapshot no
longer has. -/
def removeSystemFieldsH : Nat → Heap → HVal → Heap × HVal
  | 0, h, v => (h, v)
  | fuel + 1, h, v =>
    match v with
    | .ref a =>
      match heapGet h a with
      | some (.hdict es) =>
        let es1 := popSysH es
        (es1.foldl (fun hh e =>
          match e.2 with
          | .ref _ => (removeSystemFieldsH fuel hh e.2).1
          | _ => hh) (heapSet h a (.hdict es1)), v)
      | _ => (h, v)
    | _ => (h, v)

/-- Oracle for the faker generators in the heap model. -/
abbrev HGen := String → Option HVal

/-- Replace the first binding of a key in a heap dictionary's entries. -/
def setEntryH (es : List (String × HVal)) (k : String) (w : HVal) :
    List (String × HVal) :=
  match es with
  | [] => []
  | (k', v) :: rest => if k' = k then (k', w) :: rest else (k', v) :: setEntryH rest k w

/-- Heap-model `sanitize_document_recursive(doc)` (sanitizer.py lines
41-63): mutates the document in place and returns the very value it was
given. A dictionary field whose lower-cased name matches a rule is
overwritten at the dictionary's address (reading the current entries, as
Python's `doc[key] = ...` does) with the generated value (`"REDACTED"`
when the generator raises); otherwise dictionary- or list-valued fields
are recursed into; every element of a list value is visited. -/
def sanitizeDocumentRecursiveH (gen : HGen) : Nat → Heap → HVal → Heap × HVal
  | 0, h, v => (h, v)
  | fuel + 1, h, v =>
    match v with
    | .ref a =>
      match heapGet h a with
      | some (.hdict es) =>
        (es.foldl (fun hh e =>
          if ruleNames.contains (pyLower e.1) then
            match heapGet hh a with
            | some (.hdict cur) =>
              heapSet hh a (.hdict (setEntryH cur e.1
                (match gen (pyLower e.1) with
                 | some u => u
                 | none => .str "REDACTED")))
            | _ => hh
          else
            match e.2 with
            | .ref _ => (sanitizeDocumentRecursiveH gen fuel hh e.2).1
            | _ => hh) h, v)
      | some (.harr xs) =>
        (xs.foldl (fun hh x => (sanitizeDocumentRecursiveH gen fuel hh x).1) h, v)
      | none => (h, v)
    | _ => (h, v)

/-- Python `item.copy()` on a heap dictionary: allocate a fresh address
holding the same entry list — a shallow copy, every nested reference
shared with the original. -/
def dictCopyH (h : Heap) (v : HVal) : Heap × HVal :=
  match v with
  | .ref a =>
    match heapGet h a with
    | some (.hdict es) => (h ++ [(freshAddr h, .hdict es)], .ref (freshAddr h))
    | _ => (h, v)
  | _ => (h, v)

/-- Heap model of the engine's write preparation (migration.py lines
132-134 and 141-143): `item_to_write = item.copy()`, then
`sanitize_document_recursive(item_to_write)` when sanitisation is enabled. -/
def prepareWriteBodyH (sanitizeFlag : Bool) (gen : HGen) (fuel : Nat)
    (h : Heap) (item : HVal) : Heap × HVal :=
  let hc := dictCopyH h item
  if sanitizeFlag then sanitizeDocumentRecursiveH gen fuel hc.1 hc.2 else hc

/-- Evolution relation between heaps under `remove_system_fields`: every
dictionary keeps its address and can only lose entries, every list and
every unused address is untouched. -/
def shrinksOnly (h h' : Heap) : Prop :=
  (∀ a es, heapGet h a = some (.hdict es) →
    ∃ es', heapGet h' a = some (.hdict es') ∧ es'.Sublist es)
  ∧ (∀ a xs, heapGet h a = some (.harr xs) → heapGet h' a = some (.harr xs))
  ∧ (∀ a, heapGet h a = none → heapGet h' a = none)

/-! ## Concrete fixtures for the claims' runs and witnesses -/

/-- Defaults of `main.py` / `DataMigrator.__init__`: batch 100,
`max_retries` 3, sanitisation off (the oracle is then unused). -/
def demoCfg : Config := ⟨100, 3, false, fun _ => none⟩

/-- Configuration with sanitisation enabled and a fixed generator. -/
def demoSanCfg : Config := ⟨100, 3, true, fun _ => some (.str "FAKE")⟩

/-- A plain document with single-path partition key value `"xy"`. -/
def demoDocA : Dict := [("id", .str "a"), ("pk", .str "xy"), ("v", .num 1)]

/-- A second plain document, partition key value `"zz"`. -/
def demoDocB : Dict := [("id", .str "b"), ("pk", .str "zz"), ("v", .num 2)]

/-- A document whose partition-key value is `null` — permanently invalid. -/
def demoInvalidDoc : Dict := [("id", .str "c"), ("pk", .null)]

/-- Empty run state: zero counters, empty target, no writes, no faults. -/
def demoState0 : MigState := ⟨⟨0, 0, 0, 0⟩, [], [], []⟩

/-- Run state whose target already holds `demoDocA`. -/
def demoStateA : MigState := ⟨⟨0, 0, 0, 0⟩, [demoDocA], [], []⟩

/-- Source document for the reconciliation claim: a `_ts` inside a
list-nested mapping (value 1), one-character partition key so the buggy
`pk_value[0]` lookup still hits. -/
def c6SourceDoc : Dict :=
  [("id", .str "a"), ("pk", .str "x"),
   ("l", .arr [.dict [("_ts", .num 1), ("v", .num 2)]])]

/-- Target copy of `c6SourceDoc` differing only in that nested `_ts`. -/
def c6TargetDoc : Dict :=
  [("id", .str "a"), ("pk", .str "x"),
   ("l", .arr [.dict [("_ts", .num 5), ("v", .num 2)]])]

/-- Document for the back-fill claim: the partition key lives at the nested
path `meta/pk`, so the path string itself is not a top-level key. -/
def c7Doc : Dict := [("id", .str "a"), ("meta", .dict [("pk", .str "x")])]

/-- Run state whose target already holds `c6TargetDoc`. -/
def c6State : MigState := ⟨⟨0, 0, 0, 0⟩, [c6TargetDoc], [], []⟩

/-- Caller's document for the sanitiser claim: address 0 is the original,
whose field `x` shares the nested mapping at address 1 holding an `email`. -/
def c8Heap : Heap :=
  [(0, .hdict [("id", .str "a"), ("x", .ref 1)]),
   (1, .hdict [("email", .str "real@example.com")])]

/-- Deterministic faker oracle for the sanitiser claim. -/
def c8Gen : HGen := fun _ => some (.str "FAKE")

/-- Heap for the `remove_system_fields` frame claim: the source document at
address 0 has a top-level `_etag`, a nested mapping (address 1) with a
`_rid`, and a list (address 2) holding a mapping (address 3) with a `_ts`. -/
def c10Heap : Heap :=
  [(0, .hdict [("id", .str "a"), ("_etag", .str "E"), ("inner", .ref 1), ("l", .ref 2)]),
   (1, .hdict [("_rid", .str "R"), ("x", .num 1)]),
   (2, .harr [.ref 3]),
   (3, .hdict [("_ts", .num 9), ("v", .num 2)])]

/-! ## Theorems -/

/-- C9. Verification contract: with both count queries succeeding,
`verify_migration` returns `matched = (source == target)` together with the
two counts — so `matched = true` exactly when the counts are equal — and a
failure of either query yields `(False, 0, 0)` instead of raising. -/
theorem c9_verification_contract :
    (∀ s t : Int, verifyMigration (.ok s) (.ok t) = ((s == t), s, t))
    ∧ (∀ s t : Int, (verifyMigration (.ok s) (.ok t)).1 = true ↔ s = t)
    ∧ (∀ (e : PyErr) (q : Except PyErr Int), verifyMigration (.error e) q = (false, 0, 0))
    ∧ (∀ (s : Int) (e : PyErr), verifyMigration (.ok s) (.error e) = (false, 0, 0)) := by
  refine ⟨fun s t => rfl, fun s t => ?_, fun e q => rfl, fun s e => rfl⟩
  simp [verifyMigration]

/-- C2. Partition-key mismatch abort: whenever the stripped partition-key
path lists of source and target differ, `migrate_container` raises the
configuration `ValueError` before processing any document — the returned
state shows the target untouched and an empty write trace. -/
theorem c2_partition_key_mismatch_abort (cfg : Config) (source target : Container)
    (faults : List Bool)
    (h : getPartitionKeyPath source ≠ getPartitionKeyPath target) :
    migrateContainer cfg source target faults =
      (.error .valueErrorPkMismatch, ⟨⟨0, 0, 0, 0⟩, target.docs, [], faults⟩) := by
  unfold migrateContainer
  simp [h]

/-- Witness for C2 at a concrete mismatching pair of containers. -/
theorem c2_partition_key_mismatch_abort_witness :
    migrateContainer demoCfg ⟨["/pk"], [demoDocA]⟩ ⟨["/other"], []⟩ [] =
      (.error .valueErrorPkMismatch, ⟨⟨0, 0, 0, 0⟩, [], [], []⟩) :=
  c2_partition_key_mismatch_abort demoCfg ⟨["/pk"], [demoDocA]⟩ ⟨["/other"], []⟩ []
    (by decide)

/-- C1, failing run. Re-running the migration over an already-migrated
single-path collection (target holds the identical document) does not yield
`inserted = 0, updated = 0, skipped = 1`: line 121 passes `pk_value[0]` —
the first character `"x"` of the stale loop variable holding `"xy"` —
as the partition key, the target read misses, the insert attempt conflicts,
and the uncaught `CosmosResourceExistsError` aborts the whole run with no
document counted. -/
theorem c1_second_run_aborts_on_conflict :
    migrateContainer demoCfg ⟨["/pk"], [demoDocA]⟩ ⟨["/pk"], [demoDocA]⟩ [] =
      (.error .cosmosConflict, ⟨⟨0, 0, 0, 0⟩, [demoDocA], [], []⟩)
    ∧ ∀ c : Counters,
        (migrateContainer demoCfg ⟨["/pk"], [demoDocA]⟩ ⟨["/pk"], [demoDocA]⟩ []).1 ≠ .ok c := by
  refine ⟨rfl, fun c hc => ?_⟩
  rw [show (migrateContainer demoCfg ⟨["/pk"], [demoDocA]⟩ ⟨["/pk"], [demoDocA]⟩ []).1
        = Except.error .cosmosConflict from rfl] at hc
  exact Except.noConfusion hc

/-- C4, failing run. One single transient failure of the first store write
(fewer than `max_retries = 3`) aborts the entire collection migration: the
attempt loop body ends in an unconditional `break` and no handler catches
the error, so there is no second attempt, the document is not counted as an
Error, and the second source document is never processed (target stays
empty, write trace empty). -/
theorem c4_transient_write_failure_aborts :
    migrateContainer demoCfg ⟨["/pk"], [demoDocA, demoDocB]⟩ ⟨["/pk"], []⟩ [true] =
      (.error .transientStoreFault, ⟨⟨0, 0, 0, 0⟩, [], [], []⟩)
    ∧ ∀ c : Counters,
        (migrateContainer demoCfg ⟨["/pk"], [demoDocA, demoDocB]⟩ ⟨["/pk"], []⟩ [true]).1 ≠ .ok c := by
  refine ⟨rfl, fun c hc => ?_⟩
  rw [show (migrateContainer demoCfg ⟨["/pk"], [demoDocA, demoDocB]⟩ ⟨["/pk"], []⟩ [true]).1
        = Except.error .transientStoreFault from rfl] at hc
  exact Except.noConfusion hc

/-- C3, counterexample. An insert that conflicts (`demoDocA` already lives
at the target with the same `id` and body partition key, while the buggy
single-path read missed it) is not classified Skip: the exception
propagates, no counter moves (the run never produces counters at all), and
the next document `demoDocB` is never processed — the final target still
holds only `demoDocA` and nothing was written. -/
theorem c3_conflict_abort_counterexample :
    migrateContainer demoCfg ⟨["/pk"], [demoDocA, demoDocB]⟩ ⟨["/pk"], [demoDocA]⟩ [] =
      (.error .cosmosConflict, ⟨⟨0, 0, 0, 0⟩, [demoDocA], [], []⟩)
    ∧ ∀ c : Counters,
        (migrateContainer demoCfg ⟨["/pk"], [demoDocA, demoDocB]⟩ ⟨["/pk"], [demoDocA]⟩ []).1 ≠ .ok c := by
  refine ⟨rfl, fun c hc => ?_⟩
  rw [show (migrateContainer demoCfg ⟨["/pk"], [demoDocA, demoDocB]⟩ ⟨["/pk"], [demoDocA]⟩ []).1
        = Except.error .cosmosConflict from rfl] at hc
  exact Except.noConfusion hc

/-- C3, amended. A "document already exists" conflict raised by
`create_item` is not handled anywhere: `insert` propagates it leaving the
state unchanged apart from the consumed fault slot (no counter moves, no
write is recorded, the target keeps its documents), and any error escaping
the processing of one document stops the whole document loop — the
remaining documents are not processed. -/
theorem c3_conflict_propagates_aborting :
    (∀ (cfg : Config) (tPaths : List String) (st : MigState) (item : Dict)
       (fs : List Bool),
      popFault st.faults = (false, fs) →
      createItem tPaths st.target
          (if cfg.sanitizeFlag then sanEntries cfg.gen item else item) =
        .error .cosmosConflict →
      insertMissing cfg tPaths st item = .error (.cosmosConflict, { st with faults := fs }))
    ∧ (∀ (cfg : Config) (tPaths : List String) (st st' : MigState) (item : Dict)
        (rest : List Dict) (e : PyErr),
      processItem cfg tPaths st item = .error (e, st') →
      runItems cfg tPaths (item :: rest) st = (.error e, st')) := by
  constructor
  · intro cfg tPaths st item fs hpop hcreate
    unfold insertMissing
    rw [hpop]
    simp [hcreate]
  · intro cfg tPaths st st' item rest e hpi
    simp [runItems, hpi]

/-- Witness for the amended C3: the conflicting insert of `demoDocA` into a
target already holding it propagates the conflict unchanged, and the run
over `[demoDocA, demoDocB]` stops there. -/
theorem c3_conflict_propagates_aborting_witness :
    insertMissing demoCfg ["pk"] demoStateA demoDocA =
      .error (.cosmosConflict, demoStateA)
    ∧ runItems demoCfg ["pk"] [demoDocA, demoDocB] demoStateA =
        (.error .cosmosConflict, demoStateA) :=
  ⟨c3_conflict_propagates_aborting.1 demoCfg ["pk"] demoStateA demoDocA [] rfl rfl,
   c3_conflict_propagates_aborting.2 demoCfg ["pk"] demoStateA demoStateA demoDocA
     [demoDocB] .cosmosConflict rfl⟩

/-- C5. Invalid partition-key exclusion: a document (with a truthy `id`)
whose extracted partition-key values contain a `null`, empty-string, or
composite element is counted as exactly one Error — the state is otherwise
untouched, so nothing is written — and the loop continues with the
remaining documents. -/
theorem c5_invalid_pk_excluded (cfg : Config) (tPaths : List String)
    (st : MigState) (item : Dict) (rest : List Dict) (vs : List JVal)
    (hid : pyFalsy ((dGet item "id").getD .null) = false)
    (hex : getPartitionKeyValue item tPaths = .ok vs)
    (hinv : vs.any invalidPkValue = true) :
    processItem cfg tPaths st item = .ok (incErrors st)
    ∧ runItems cfg tPaths (item :: rest) st = runItems cfg tPaths rest (incErrors st) := by
  have h1 : processItem cfg tPaths st item = .ok (incErrors st) := by
    unfold processItem
    simp [hid, hex, hinv]
  exact ⟨h1, by simp [runItems, h1]⟩

/-- Witness for C5: the `null`-keyed `demoInvalidDoc` is excluded with one
Error and the loop moves on. -/
theorem c5_invalid_pk_excluded_witness :
    processItem demoCfg ["pk"] demoState0 demoInvalidDoc = .ok (incErrors demoState0)
    ∧ runItems demoCfg ["pk"] [demoInvalidDoc, demoDocB] demoState0 =
        runItems demoCfg ["pk"] [demoDocB] (incErrors demoState0) :=
  c5_invalid_pk_excluded demoCfg ["pk"] demoState0 demoInvalidDoc [demoDocB]
    [.null] rfl rfl rfl

/-- C6, counterexample. The source and target documents agree after the
spec's recursive exclusion of system fields (the only difference is a `_ts`
inside a list-nested mapping), yet the code classifies the document Update,
not Skip: `remove_system_fields` does not descend into sequences, the
surviving `_ts` values differ, and the run replaces the target copy
(`updated = 1`, `skipped = 0`, one write issued). -/
theorem c6_sequence_nested_system_field_counterexample :
    pyEqJ (specStripSystemFields (.dict c6SourceDoc))
        (specStripSystemFields (.dict c6TargetDoc)) = true
    ∧ migrateContainer demoCfg ⟨["/pk"], [c6SourceDoc]⟩ ⟨["/pk"], [c6TargetDoc]⟩ [] =
        (.ok ⟨0, 1, 0, 0⟩, ⟨⟨0, 1, 0, 0⟩, [c6SourceDoc], [c6SourceDoc], []⟩) :=
  ⟨rfl, rfl⟩

theorem heapGet_set_self (h : Heap) (a : Nat) (o : HObj) :
    heapGet (heapSet h a o) a = some o := by
  induction h with
  | nil => simp [heapSet, heapGet]
  | cons e rest ih =>
    obtain ⟨b, o'⟩ := e
    by_cases hb : b = a
    · subst hb; simp [heapSet, heapGet]
    · simp [heapSet, heapGet, hb, ih]

theorem heapGet_set_ne (h : Heap) (a : Nat) (o : HObj) (b : Nat) (hne : b ≠ a) :
    heapGet (heapSet h a o) b = heapGet h b := by
  induction h with
  | nil => simp [heapSet, heapGet, Ne.symm hne]
  | cons e rest ih =>
    obtain ⟨c, o'⟩ := e
    by_cases hc : c = a
    · subst hc
      simp [heapSet, heapGet, Ne.symm hne]
    · simp [heapSet, heapGet, hc, ih]

theorem shrinksOnly_refl (h : Heap) : shrinksOnly h h :=
  ⟨fun _ es hh => ⟨es, hh, List.Sublist.refl es⟩, fun _ _ hh => hh, fun _ hh => hh⟩

theorem shrinksOnly_trans {h1 h2 h3 : Heap} (g : shrinksOnly h1 h2)
    (g' : shrinksOnly h2 h3) : shrinksOnly h1 h3 := by
  refine ⟨fun a es hh => ?_, fun a xs hh => g'.2.1 a xs (g.2.1 a xs hh),
    fun a hh => g'.2.2 a (g.2.2 a hh)⟩
  obtain ⟨es', h2a, hsub⟩ := g.1 a es hh
  obtain ⟨es'', h3a, hsub'⟩ := g'.1 a es' h2a
  exact ⟨es'', h3a, hsub'.trans hsub⟩

theorem popSysH_sublist (es : List (String × HVal)) : (popSysH es).Sublist es :=
  List.filter_sublist es

theorem popSysH_no_sys (es : List (String × HVal)) :
    ∀ e ∈ popSysH es, sysFields.contains e.1 = false := by
  intro e he
  have := (List.mem_filter.1 he).2
  simpa using this

theorem rsfH_shrinks (fuel : Nat) :
    ∀ (h : Heap) (v : HVal), shrinksOnly h (removeSystemFieldsH fuel h v).1 := by
  induction fuel with
  | zero => intro h v; exact shrinksOnly_refl h
  | succ n ih =>
    intro h v
    cases v with
    | ref a =>
      cases hg : heapGet h a with
      | none => simp [removeSystemFieldsH, hg]; exact shrinksOnly_refl h
      | some o =>
        cases o with
        | harr xs => simp [removeSystemFieldsH, hg]; exact shrinksOnly_refl h
        | hdict es =>
          have step1 : shrinksOnly h (heapSet h a (.hdict (popSysH es))) := by
            refine ⟨fun b es0 hb => ?_, fun b xs hb => ?_, fun b hb => ?_⟩
            · by_cases hba : b = a
              · subst hba
                rw [hb] at hg
                have hes : es0 = es := HObj.hdict.inj (Option.some.inj hg)
                subst hes
                exact ⟨popSysH es0, heapGet_set_self h b _, popSysH_sublist es0⟩
              · exact ⟨es0, by rw [heapGet_set_ne h a _ b hba]; exact hb, List.Sublist.refl _⟩
            · by_cases hba : b = a
              · subst hba; rw [hb] at hg; simp at hg
              · rw [heapGet_set_ne h a _ b hba]; exact hb
            · by_cases hba : b = a
              · subst hba; rw [hb] at hg; simp at hg
              · rw [heapGet_set_ne h a _ b hba]; exact hb
          have step2 : ∀ (l : List (String × HVal)) (h0 : Heap),
              shrinksOnly h0 (l.foldl (fun hh e =>
                match e.2 with
                | .ref _ => (removeSystemFieldsH n hh e.2).1
                | _ => hh) h0) := by
            intro l
            induction l with
            | nil => intro h0; exact shrinksOnly_refl h0
            | cons e rest ihl =>
              intro h0
              have hstep : shrinksOnly h0
                  (match e.2 with
                   | .ref _ => (removeSystemFieldsH n h0 e.2).1
                   | _ => h0) := by
                cases e.2 with
                | ref b => exact ih h0 (.ref b)
                | null => exact shrinksOnly_refl h0
                | boolean b => exact shrinksOnly_refl h0
                | num m => exact shrinksOnly_refl h0
                | str s => exact shrinksOnly_refl h0
              exact shrinksOnly_trans hstep (by simpa using ihl _)
          have : (removeSystemFieldsH (n + 1) h (.ref a)).1 =
              (popSysH es).foldl (fun hh e =>
                match e.2 with
                | .ref _ => (removeSystemFieldsH n hh e.2).1
                | _ => hh) (heapSet h a (.hdict (popSysH es))) := by
            simp [removeSystemFieldsH, hg]
          rw [this]
          exact shrinksOnly_trans step1 (step2 _ _)
    | null => exact shrinksOnly_refl h
    | boolean b => exact shrinksOnly_refl h
    | num m => exact shrinksOnly_refl h
    | str s => exact shrinksOnly_refl h

theorem rsfH_returns_argument (fuel : Nat) (h : Heap) (v : HVal) :
    (removeSystemFieldsH fuel h v).2 = v := by
  cases fuel with
  | zero => rfl
  | succ n =>
    cases v with
    | ref a =>
      cases hg : heapGet h a with
      | none => simp [removeSystemFieldsH, hg]
      | some o => cases o <;> simp [removeSystemFieldsH, hg]
    | null => rfl
    | boolean b => rfl
    | num m => rfl
    | str s => rfl

/-- C10, counterexample. After `remove_system_fields` runs on the source
document (address 0), the top-level `_etag` and the `_rid` of the directly
nested mapping are gone, but the claim's "has lost all system metadata
fields" is false: the `_ts` of the mapping reached only through the list
(address 3) survives, because the recursive call on a list value returns
without visiting its elements — and a subsequent write of this document
would carry that `_ts`. -/
theorem c10_sequence_nested_field_survives_counterexample :
    removeSystemFieldsH 9 c10Heap (.ref 0) =
      ([(0, .hdict [("id", .str "a"), ("inner", .ref 1), ("l", .ref 2)]),
        (1, .hdict [("x", .num 1)]),
        (2, .harr [.ref 3]),
        (3, .hdict [("_ts", .num 9), ("v", .num 2)])], .ref 0)
    ∧ heapGet (removeSystemFieldsH 9 c10Heap (.ref 0)).1 3 =
        some (.hdict [("_ts", .num 9), ("v", .num 2)]) :=
  ⟨rfl, rfl⟩

/-- C10, amended. `remove_system_fields` mutates in place and returns the
very dictionary it is given: for every heap the returned value is the
argument itself; with any fuel at all, the dictionary at the given address
afterwards holds a sub-list of its popped entries, none of which is a
system field (the four keys are deleted there and nothing is ever added);
and a reference to a list is returned untouched with the heap unchanged —
the recursion does not descend through sequences, so mappings inside
sequences keep their system fields. -/
theorem c10_remove_system_fields_in_place :
    (∀ (fuel : Nat) (h : Heap) (v : HVal), (removeSystemFieldsH fuel h v).2 = v)
    ∧ (∀ (n : Nat) (h : Heap) (a : Nat) (es : List (String × HVal)),
        heapGet h a = some (.hdict es) →
        ∃ es', heapGet (removeSystemFieldsH (n + 1) h (.ref a)).1 a = some (.hdict es')
          ∧ es'.Sublist (popSysH es)
          ∧ ∀ e ∈ es', sysFields.contains e.1 = false)
    ∧ (∀ (fuel : Nat) (h : Heap) (a : Nat) (xs : List HVal),
        heapGet h a = some (.harr xs) →
        removeSystemFieldsH fuel h (.ref a) = (h, .ref a)) := by
  refine ⟨rsfH_returns_argument, fun n h a es hg => ?_, fun fuel h a xs hg => ?_⟩
  · have hres : (removeSystemFieldsH (n + 1) h (.ref a)).1 =
        (popSysH es).foldl (fun hh e =>
          match e.2 with
          | .ref _ => (removeSystemFieldsH n hh e.2).1
          | _ => hh) (heapSet h a (.hdict (popSysH es))) := by
      simp [removeSystemFieldsH, hg]
    have hshr : shrinksOnly (heapSet h a (.hdict (popSysH es)))
        (removeSystemFieldsH (n + 1) h (.ref a)).1 := by
      rw [hres]
      generalize heapSet h a (.hdict (popSysH es)) = h1
      induction popSysH es generalizing h1 with
      | nil => exact shrinksOnly_refl h1
      | cons e rest ihl =>
        have hstep : shrinksOnly h1
            (match e.2 with
             | .ref _ => (removeSystemFieldsH n h1 e.2).1
             | _ => h1) := by
          cases e.2 with
          | ref b => exact rsfH_shrinks n h1 (.ref b)
          | null => exact shrinksOnly_refl h1
          | boolean b => exact shrinksOnly_refl h1
          | num m => exact shrinksOnly_refl h1
          | str s => exact shrinksOnly_refl h1
        exact shrinksOnly_trans hstep (by simpa using ihl _)
    obtain ⟨es', hget, hsub⟩ :=
      hshr.1 a (popSysH es) (heapGet_set_self h a (.hdict (popSysH es)))
    exact ⟨es', hget, hsub, fun e he => popSysH_no_sys es e (hsub.subset he)⟩
  · cases fuel with
    | zero => rfl
    | succ n => simp [removeSystemFieldsH, hg]

/-- Witness for the amended C10 at the concrete heap: the stripped source
document is returned as the same reference with its own entries free of
system fields, and the list at address 2 is left entirely alone. -/
theorem c10_remove_system_fields_in_place_witness :
    (removeSystemFieldsH 9 c10Heap (.ref 0)).2 = .ref 0
    ∧ (∃ es', heapGet (removeSystemFieldsH 9 c10Heap (.ref 0)).1 0 = some (.hdict es')
        ∧ es'.Sublist (popSysH [("id", .str "a"), ("_etag", .str "E"),
            ("inner", .ref 1), ("l", .ref 2)])
        ∧ ∀ e ∈ es', sysFields.contains e.1 = false)
    ∧ removeSystemFieldsH 7 c10Heap (.ref 2) = (c10Heap, .ref 2) :=
  ⟨c10_remove_system_fields_in_place.1 9 c10Heap (.ref 0),
   c10_remove_system_fields_in_place.2.1 8 c10Heap 0
     [("id", .str "a"), ("_etag", .str "E"), ("inner", .ref 1), ("l", .ref 2)] rfl,
   c10_remove_system_fields_in_place.2.2 7 c10Heap 2 [.ref 3] rfl⟩

theorem sanH_returns_argument (gen : HGen) (fuel : Nat) (h : Heap) (v : HVal) :
    (sanitizeDocumentRecursiveH gen fuel h v).2 = v := by
  cases fuel with
  | zero => rfl
  | succ n =>
    cases v with
    | ref a =>
      cases hg : heapGet h a with
      | none => simp [sanitizeDocumentRecursiveH, hg]
      | some o => cases o <;> simp [sanitizeDocumentRecursiveH, hg]
    | null => rfl
    | boolean b => rfl
    | num m => rfl
    | str s => rfl

theorem heapGet_append_left (h h' : Heap) (b : Nat) (o : HObj)
    (hb : heapGet h b = some o) : heapGet (h ++ h') b = some o := by
  induction h with
  | nil => cases hb
  | cons e rest ih =>
    obtain ⟨c, o'⟩ := e
    by_cases hc : c = b
    · subst hc
      simp [heapGet] at hb ⊢
      exact hb
    · simp [heapGet, hc] at hb ⊢
      exact ih hb

/-- C8, counterexample. The engine's write preparation with sanitisation
enabled — `item.copy()` then `sanitize_document_recursive` on the copy —
mutates the caller's original document: the nested mapping at address 1,
shared between the original (address 0) and the shallow copy (address 2),
has its `email` overwritten, so the caller's document no longer holds the
original value. -/
theorem c8_sanitizer_purity_counterexample :
    prepareWriteBodyH true c8Gen 9 c8Heap (.ref 0) =
      ([(0, .hdict [("id", .str "a"), ("x", .ref 1)]),
        (1, .hdict [("email", .str "FAKE")]),
        (2, .hdict [("id", .str "a"), ("x", .ref 1)])], .ref 2)
    ∧ heapGet (prepareWriteBodyH true c8Gen 9 c8Heap (.ref 0)).1 1 ≠ heapGet c8Heap 1 :=
  ⟨rfl, by decide⟩

/-- C8, amended. `sanitize_document_recursive` mutates the document in
place and returns the very reference it is given; the engine applies it
only to a shallow top-level copy, so with sanitisation disabled the copy is
fresh and every pre-existing address of the caller's heap is untouched,
while with sanitisation enabled the nested structures shared between copy
and original are rewritten — on the demonstration heap the original's own
entry list survives but its nested mapping's `email` is replaced. -/
theorem c8_sanitizer_in_place_shallow_copy :
    (∀ (gen : HGen) (fuel : Nat) (h : Heap) (v : HVal),
        (sanitizeDocumentRecursiveH gen fuel h v).2 = v)
    ∧ (∀ (gen : HGen) (fuel : Nat) (h : Heap) (a : Nat) (es : List (String × HVal)),
        heapGet h a = some (.hdict es) →
        prepareWriteBodyH false gen fuel h (.ref a) =
          (h ++ [(freshAddr h, .hdict es)], .ref (freshAddr h))
        ∧ ∀ (b : Nat) (o : HObj), heapGet h b = some o →
            heapGet (prepareWriteBodyH false gen fuel h (.ref a)).1 b = some o)
    ∧ (heapGet (prepareWriteBodyH true c8Gen 9 c8Heap (.ref 0)).1 0 =
          some (.hdict [("id", .str "a"), ("x", .ref 1)])
       ∧ heapGet (prepareWriteBodyH true c8Gen 9 c8Heap (.ref 0)).1 1 =
          some (.hdict [("email", .str "FAKE")])) := by
  refine ⟨sanH_returns_argument, fun gen fuel h a es hg => ?_, rfl, rfl⟩
  have hcopy : prepareWriteBodyH false gen fuel h (.ref a) =
      (h ++ [(freshAddr h, .hdict es)], .ref (freshAddr h)) := by
    simp [prepareWriteBodyH, dictCopyH, hg]
  refine ⟨hcopy, fun b o hb => ?_⟩
  rw [hcopy]
  exact heapGet_append_left h _ b o hb

/-- Witness for the amended C8 at the concrete heap: the sanitiser returns
the reference it was given, and the disabled path only appends the fresh
copy, leaving both pre-existing addresses intact. -/
theorem c8_sanitizer_in_place_shallow_copy_witness :
    (sanitizeDocumentRecursiveH c8Gen 9 c8Heap (.ref 0)).2 = .ref 0
    ∧ prepareWriteBodyH false c8Gen 9 c8Heap (.ref 0) =
        (c8Heap ++ [(freshAddr c8Heap, .hdict [("id", .str "a"), ("x", .ref 1)])],
         .ref (freshAddr c8Heap))
    ∧ heapGet (prepareWriteBodyH false c8Gen 9 c8Heap (.ref 0)).1 1 =
        some (.hdict [("email", .str "real@example.com")]) :=
  ⟨c8_sanitizer_in_place_shallow_copy.1 c8Gen 9 c8Heap (.ref 0),
   (c8_sanitizer_in_place_shallow_copy.2.1 c8Gen 9 c8Heap 0
      [("id", .str "a"), ("x", .ref 1)] rfl).1,
   (c8_sanitizer_in_place_shallow_copy.2.1 c8Gen 9 c8Heap 0
      [("id", .str "a"), ("x", .ref 1)] rfl).2 1
     (.hdict [("email", .str "real@example.com")]) rfl⟩

/-- C6, amended. Reconciliation decision for a document found at the
target: both sides are stripped by `remove_system_fields` (recursive
through mapping values only — sequences are not descended into, so system
fields of mappings inside lists take part in the comparison, which is
otherwise deep, order-insensitive for mapping keys and order-sensitive for
sequences). When the stripped contents are equal the document is counted
Skipped with the state otherwise untouched — no write; when they differ,
the target document is fully replaced by the stripped (and, if enabled,
sanitised) source content and the document is counted Updated, the write
appearing in the trace. -/
theorem c6_reconciliation_decision
    (cfg : Config) (tPaths : List String) (st : MigState) (item0 : Dict)
    (pkValues pkArg : List JVal) (pv : String × JVal) (targetDoc : Dict)
    (fs : List Bool)
    (hid : pyFalsy ((dGet item0 "id").getD .null) = false)
    (hex : getPartitionKeyValue item0 tPaths = .ok pkValues)
    (hval : pkValues.any invalidPkValue = false)
    (hzip : (tPaths.zip pkValues).getLast? = some pv)
    (hmr : 1 ≤ cfg.maxRetries)
    (harg : (if pkValues.length > 1 then Except.ok pkValues
             else match subscript0 pv.2 with
                  | .ok v => Except.ok [v]
                  | .error e => Except.error e) = Except.ok pkArg)
    (hread : readItem tPaths st.target ((dGet item0 "id").getD .null) pkArg =
      some targetDoc)
    (hpop : popFault st.faults = (false, fs)) :
    (pyEqJ (removeSystemFields (.dict targetDoc))
        (.dict (rsfEntries (backfill item0 (tPaths.zip pkValues)))) = true →
      processItem cfg tPaths st item0 = .ok (incSkipped st))
    ∧ (pyEqJ (removeSystemFields (.dict targetDoc))
        (.dict (rsfEntries (backfill item0 (tPaths.zip pkValues)))) = false →
      ∀ newDocs,
        replaceItem tPaths st.target ((dGet item0 "id").getD .null)
          (if cfg.sanitizeFlag then
             sanEntries cfg.gen (rsfEntries (backfill item0 (tPaths.zip pkValues)))
           else rsfEntries (backfill item0 (tPaths.zip pkValues))) = .ok newDocs →
        processItem cfg tPaths st item0 =
          .ok (incUpdated { st with
            faults := fs
            target := newDocs
            writes := st.writes ++
              [if cfg.sanitizeFlag then
                 sanEntries cfg.gen (rsfEntries (backfill item0 (tPaths.zip pkValues)))
               else rsfEntries (backfill item0 (tPaths.zip pkValues))] })) := by
  have hatt : processItem cfg tPaths st item0 =
      attemptItem cfg tPaths st (backfill item0 (tPaths.zip pkValues))
        ((dGet item0 "id").getD .null) pkValues pv.2 := by
    unfold processItem
    simp [hid, hex, hval, hzip, hmr]
  constructor
  · intro heq
    rw [hatt]
    unfold attemptItem tryReadCompareWrite
    rw [harg]
    simp [hread, heq]
  · intro hne newDocs hrep
    rw [hatt]
    unfold attemptItem tryReadCompareWrite
    rw [harg]
    rw [hpop]
    simp [hread, hne, hrep]

/-- Witness for the amended C6 at the concrete fixtures: the source whose
list-nested `_ts` differs from the target copy takes the update branch —
full replace of the target copy, `updated` incremented, one traced write. -/
theorem c6_reconciliation_decision_witness :
    processItem demoCfg ["pk"] c6State c6SourceDoc =
      .ok (incUpdated { c6State with
        faults := []
        target := [c6SourceDoc]
        writes := c6State.writes ++
          [if demoCfg.sanitizeFlag then
             sanEntries demoCfg.gen (rsfEntries (backfill c6SourceDoc (["pk"].zip [.str "x"])))
           else rsfEntries (backfill c6SourceDoc (["pk"].zip [.str "x"]))] }) :=
  (c6_reconciliation_decision demoCfg ["pk"] c6State c6SourceDoc
      [.str "x"] [.str "x"] ("pk", .str "x") c6TargetDoc []
      rfl rfl rfl rfl (by decide) rfl rfl rfl).2 rfl [c6SourceDoc] rfl

theorem dGet_append (a b : Dict) (k : String) :
    dGet (a ++ b) k = match dGet a k with
                      | some v => some v
                      | none => dGet b k := by
  induction a with
  | nil => simp [dGet]
  | cons e rest ih =>
    obtain ⟨k', v⟩ := e
    by_cases h : k' = k <;> simp [dGet, h, ih]

theorem dMem_eq_isSome (d : Dict) (k : String) : dMem d k = (dGet d k).isSome := by
  induction d with
  | nil => rfl
  | cons e rest ih =>
    obtain ⟨k', v⟩ := e
    by_cases h : k' = k <;> simp [dMem, dGet, h, ih]

theorem backfill_preserves (item : Dict) (l : List (String × JVal)) (p : String)
    (v : JVal) (hp : dGet item p = some v) : dGet (backfill item l) p = some v := by
  induction l generalizing item with
  | nil => exact hp
  | cons q rest ih =>
    obtain ⟨q1, q2⟩ := q
    simp only [backfill]
    apply ih
    by_cases hm : dMem item q1 = true
    · simp [hm, hp]
    · have hm' : dMem item q1 = false := by simpa using hm
      simp [hm', dGet_append, hp]

theorem backfill_adds (item : Dict) (l : List (String × JVal)) (p : String)
    (v : JVal) (hmiss : dGet item p = none)
    (hl : ∀ q ∈ l, q.1 = p → q.2 = v)
    (hin : p ∈ l.map Prod.fst) :
    dGet (backfill item l) p = some v := by
  induction l generalizing item with
  | nil => simp at hin
  | cons q rest ih =>
    obtain ⟨q1, q2⟩ := q
    simp only [backfill]
    by_cases hq : q1 = p
    · subst hq
      have hv : q2 = v := hl (q1, q2) (List.mem_cons_self _ _) rfl
      subst hv
      have hm : dMem item q1 = false := by rw [dMem_eq_isSome, hmiss]; rfl
      rw [if_neg (by simp [hm])]
      exact backfill_preserves _ rest q1 q2 (by simp [dGet_append, hmiss, dGet])
    · have hin' : p ∈ rest.map Prod.fst := by
        have hin2 : p ∈ q1 :: rest.map Prod.fst := by
          simpa only [List.map_cons] using hin
        rcases List.mem_cons.1 hin2 with h | h
        · exact absurd h.symm hq
        · exact h
      have hl' : ∀ q ∈ rest, q.1 = p → q.2 = v :=
        fun q hq' => hl q (List.mem_cons_of_mem _ hq')
      by_cases hm : dMem item q1 = true
      · rw [if_pos (by simp [hm])]
        exact ih item hmiss hl' hin'
      · have hm' : dMem item q1 = false := by simpa using hm
        rw [if_neg (by simp [hm'])]
        refine ih (item ++ [(q1, q2)]) ?_ hl' hin'
        simp [dGet_append, hmiss, dGet, hq]

theorem getPartitionKeyValue_forall (item : Dict) (paths : List String)
    (vs : List JVal) (h : getPartitionKeyValue item paths = .ok vs) :
    List.Forall₂ (fun p v => traversePath (.dict item) (pySplit p) = .ok v) paths vs := by
  induction paths generalizing vs with
  | nil =>
    simp only [getPartitionKeyValue] at h
    cases h
    exact .nil
  | cons p ps ih =>
    simp only [getPartitionKeyValue] at h
    cases ht : traversePath (.dict item) (pySplit p) with
    | error e => rw [ht] at h; simp at h
    | ok v0 =>
      rw [ht] at h
      cases hr : getPartitionKeyValue item ps with
      | error e => rw [hr] at h; simp at h
      | ok vs0 =>
        rw [hr] at h
        simp only at h
        cases h
        exact .cons ht (ih vs0 hr)

theorem forall₂_zip_pair {R : String → JVal → Prop} :
    ∀ {as_ : List String} {bs : List JVal}, List.Forall₂ R as_ bs →
      ∀ q ∈ as_.zip bs, R q.1 q.2 := by
  intro as_ bs h
  induction h with
  | nil => intro q hq; simp at hq
  | cons hr _ ih =>
    intro q hq
    rcases List.mem_cons.1 (by simpa using hq) with h1 | h1
    · subst h1; exact hr
    · exact ih q h1

theorem mem_zip_left_of_forall₂ {R : String → JVal → Prop} :
    ∀ {as_ : List String} {bs : List JVal}, List.Forall₂ R as_ bs →
      ∀ p ∈ as_, ∃ v, (p, v) ∈ as_.zip bs := by
  intro as_ bs h
  induction h with
  | nil => intro p hp; simp at hp
  | @cons a b l1 l2 _ _ ih =>
    intro p hp
    rcases List.mem_cons.1 hp with h1 | h1
    · exact ⟨b, by simp [h1]⟩
    · obtain ⟨v, hv⟩ := ih p h1
      exact ⟨v, by simpa using Or.inr (by simpa using hv)⟩

theorem splitSlashChars_no_slash (cs : List Char) (h : ¬ '/' ∈ cs) :
    splitSlashChars cs = [cs] := by
  induction cs with
  | nil => rfl
  | cons c rest ih =>
    have hc : ¬ c = '/' := fun e => h (e ▸ List.mem_cons_self c rest)
    have hrest : ¬ '/' ∈ rest := fun hm => h (List.mem_cons_of_mem _ hm)
    simp [splitSlashChars, hc, ih hrest]

theorem pySplit_no_slash (p : String) (h : ¬ '/' ∈ p.data) : pySplit p = [p] := by
  unfold pySplit
  rw [splitSlashChars_no_slash p.data h]
  rfl

theorem slash_not_sys (p : String) (h : '/' ∈ p.data) :
    sysFields.contains p = false := by
  by_contra hc
  have hp : p ∈ sysFields := by
    have : sysFields.contains p = true := by simpa using hc
    simpa using this
  have hnone : ∀ n ∈ sysFields, ¬ '/' ∈ n.data := by decide
  exact hnone p hp h

theorem slash_not_rule (p : String) (h : '/' ∈ p.data) :
    ruleNames.contains (pyLower p) = false := by
  by_contra hc
  have hp : pyLower p ∈ ruleNames := by
    have : ruleNames.contains (pyLower p) = true := by simpa using hc
    simpa using this
  have hslash : '/' ∈ (pyLower p).data := by
    show '/' ∈ p.data.map Char.toLower
    exact List.mem_map.2 ⟨'/', h, by decide⟩
  have hnone : ∀ n ∈ ruleNames, ¬ '/' ∈ n.data := by decide
  exact hnone _ hp hslash

theorem rsfEntries_preserves (d : Dict) (p : String) (v : JVal)
    (hget : dGet d p = some v)
    (hsys : sysFields.contains p = false)
    (hnd : ∀ es, v ≠ .dict es) :
    dGet (rsfEntries d) p = some v := by
  induction d with
  | nil => cases hget
  | cons e rest ih =>
    obtain ⟨k, w⟩ := e
    have hsys' : p ∉ sysFields := by simpa using hsys
    by_cases hk : k = p
    · subst hk
      have hw : w = v := Option.some.inj (by simpa [dGet] using hget)
      subst hw
      cases w with
      | dict es => exact absurd rfl (hnd es)
      | null => simp [rsfEntries, hsys', dGet]
      | boolean b => simp [rsfEntries, hsys', dGet]
      | num n => simp [rsfEntries, hsys', dGet]
      | str s => simp [rsfEntries, hsys', dGet]
      | arr xs => simp [rsfEntries, hsys', dGet]
    · have hget' : dGet rest p = some v := by simpa [dGet, hk] using hget
      revert hget
      have hstep : rsfEntries ((k, w) :: rest) =
          if sysFields.contains k then rsfEntries rest
          else match w with
            | .dict es => (k, removeSystemFields (.dict es)) :: rsfEntries rest
            | _ => (k, w) :: rsfEntries rest := by
        conv_lhs => rw [rsfEntries.eq_def]
      intro hget
      by_cases hs : k ∈ sysFields
      · have hs2 : sysFields.contains k = true := by simpa using hs
        rw [hstep, if_pos hs2]
        exact ih hget'
      · cases w <;> simp [rsfEntries, hs, dGet, hk] <;> exact ih hget'

theorem sanEntries_preserves (gen : FakeGen) (d : Dict) (p : String) (v : JVal)
    (hget : dGet d p = some v)
    (hrule : ruleNames.contains (pyLower p) = false)
    (hnd : ∀ es, v ≠ .dict es) (hna : ∀ xs, v ≠ .arr xs) :
    dGet (sanEntries gen d) p = some v := by
  induction d with
  | nil => cases hget
  | cons e rest ih =>
    obtain ⟨k, w⟩ := e
    revert hget
    have hstep : sanEntries gen ((k, w) :: rest) =
        (if ruleNames.contains (pyLower k) then (k, ruleValue gen k)
         else match w with
           | .dict es => (k, .dict (sanEntries gen es))
           | .arr xs => (k, .arr (sanArr gen xs))
           | _ => (k, w)) :: sanEntries gen rest := by
      conv_lhs => rw [sanEntries.eq_def]
    intro hget
    by_cases hr : pyLower k ∈ ruleNames
    · have hr2 : ruleNames.contains (pyLower k) = true := by simpa using hr
      have hk : ¬ k = p := by
        intro he
        subst he
        exact (by simpa using hrule : pyLower k ∉ ruleNames) hr
      have hsan : sanEntries gen ((k, w) :: rest) =
          (k, ruleValue gen k) :: sanEntries gen rest := by
        rw [hstep, if_pos hr2]
      rw [hsan]
      have hget' : dGet rest p = some v := by simpa [dGet, hk] using hget
      simpa [dGet, hk] using ih hget'
    · have hr2 : ¬ ruleNames.contains (pyLower k) = true := by simpa using hr
      rw [hstep, if_neg hr2]
      by_cases hk : k = p
      · subst hk
        have hw : w = v := Option.some.inj (by simpa [dGet] using hget)
        subst hw
        cases w with
        | dict es => exact absurd rfl (hnd es)
        | arr xs => exact absurd rfl (hna xs)
        | null => simp [dGet]
        | boolean b => simp [dGet]
        | num n => simp [dGet]
        | str s => simp [dGet]
      · have hget' : dGet rest p = some v := by simpa [dGet, hk] using hget
        cases w <;> simpa [dGet, hk] using ih hget'

theorem insertMissing_writes (cfg : Config) (tPaths : List String)
    (st2 : MigState) (itemN : Dict) (st' : MigState)
    (h : insertMissing cfg tPaths st2 itemN = .ok st') :
    st'.writes = st2.writes ++
      [if cfg.sanitizeFlag then sanEntries cfg.gen itemN else itemN] := by
  unfold insertMissing at h
  dsimp only at h
  split at h
  · exact Except.noConfusion h
  · split at h
    · rw [← Except.ok.inj h]
      rfl
    · exact Except.noConfusion h

theorem tryRCW_ok_writes (cfg : Config) (tPaths : List String) (st : MigState)
    (item : Dict) (itemId : JVal) (pkValues : List JVal) (lastPk : JVal)
    (st' : MigState)
    (h : tryReadCompareWrite cfg tPaths st item itemId pkValues lastPk = .ok st') :
    st'.writes = st.writes
    ∨ st'.writes = st.writes ++
        [if cfg.sanitizeFlag then sanEntries cfg.gen (rsfEntries item)
         else rsfEntries item] := by
  unfold tryReadCompareWrite at h
  dsimp only at h
  repeat' split at h
  all_goals first
    | exact Except.noConfusion h
    | (rw [← Except.ok.inj h]; exact Or.inl rfl)
    | (obtain rfl := Except.ok.inj h
       simp_all [incUpdated, incInserted, incSkipped])

theorem tryRCW_error_state (cfg : Config) (tPaths : List String) (st : MigState)
    (item : Dict) (itemId : JVal) (pkValues : List JVal) (lastPk : JVal)
    (e : PyErr) (st2 : MigState) (itemN : Dict)
    (h : tryReadCompareWrite cfg tPaths st item itemId pkValues lastPk =
      .error (e, st2, itemN)) :
    st2.writes = st.writes ∧ (itemN = item ∨ itemN = rsfEntries item) := by
  unfold tryReadCompareWrite at h
  dsimp only at h
  repeat' split at h
  all_goals first
    | exact Except.noConfusion h
    | (have h' := Except.error.inj h
       injection h' with h1 h23
       injection h23 with h2 h3
       subst h2
       subst h3
       first
         | exact ⟨rfl, Or.inl rfl⟩
         | exact ⟨rfl, Or.inr rfl⟩)

theorem attemptItem_writes (cfg : Config) (tPaths : List String) (st : MigState)
    (item : Dict) (itemId : JVal) (pkValues : List JVal) (lastPk : JVal)
    (st' : MigState)
    (h : attemptItem cfg tPaths st item itemId pkValues lastPk = .ok st') :
    st'.writes = st.writes
    ∨ st'.writes = st.writes ++
        [if cfg.sanitizeFlag then sanEntries cfg.gen item else item]
    ∨ st'.writes = st.writes ++
        [if cfg.sanitizeFlag then sanEntries cfg.gen (rsfEntries item)
         else rsfEntries item] := by
  unfold attemptItem at h
  cases htr : tryReadCompareWrite cfg tPaths st item itemId pkValues lastPk with
  | ok stX =>
    rw [htr] at h
    simp only at h
    rw [← Except.ok.inj h]
    rcases tryRCW_ok_writes cfg tPaths st item itemId pkValues lastPk stX htr with
      h1 | h1
    · exact Or.inl h1
    · exact Or.inr (Or.inr h1)
  | error pe =>
    obtain ⟨e, st2, itemN⟩ := pe
    rw [htr] at h
    cases e <;> simp only at h
    case cosmosNotFound =>
      obtain ⟨hw, hitem⟩ :=
        tryRCW_error_state cfg tPaths st item itemId pkValues lastPk _ st2 itemN htr
      have hins := insertMissing_writes cfg tPaths st2 itemN st' h
      rw [hins, hw]
      rcases hitem with rfl | rfl
      · exact Or.inr (Or.inl rfl)
      · exact Or.inr (Or.inr rfl)
    all_goals exact Except.noConfusion h

theorem processItem_writes (cfg : Config) (tPaths : List String) (st : MigState)
    (item0 : Dict) (st' : MigState)
    (h : processItem cfg tPaths st item0 = .ok st') :
    st'.writes = st.writes
    ∨ ∃ vs, getPartitionKeyValue item0 tPaths = .ok vs ∧
        (st'.writes = st.writes ++
            [if cfg.sanitizeFlag then
               sanEntries cfg.gen (backfill item0 (tPaths.zip vs))
             else backfill item0 (tPaths.zip vs)]
         ∨ st'.writes = st.writes ++
            [if cfg.sanitizeFlag then
               sanEntries cfg.gen (rsfEntries (backfill item0 (tPaths.zip vs)))
             else rsfEntries (backfill item0 (tPaths.zip vs))]) := by
  unfold processItem at h
  dsimp only at h
  split at h
  · obtain rfl := Except.ok.inj h
    exact Or.inl rfl
  · cases hex : getPartitionKeyValue item0 tPaths with
    | error e => rw [hex] at h; exact Except.noConfusion h
    | ok vs =>
      rw [hex] at h
      dsimp only at h
      split at h
      · obtain rfl := Except.ok.inj h
        exact Or.inl rfl
      · split at h
        · exact Except.noConfusion h
        · split at h
          · rcases attemptItem_writes cfg tPaths st
              (backfill item0 (tPaths.zip vs)) _ vs _ st' h with
              h1 | h1 | h1
            · exact Or.inl h1
            · exact Or.inr ⟨vs, rfl, Or.inl h1⟩
            · exact Or.inr ⟨vs, rfl, Or.inr h1⟩
          · obtain rfl := Except.ok.inj h
            exact Or.inl rfl

/-- C7. Partition-key backfill: for a valid document (truthy `id`, no
invalid extracted value) in which the key path `p` is not a top-level key,
the back-fill loop adds the entry `(p, v)` — `v` being the value the
resolver extracted for `p` — to the document before any write, and every
body this document's processing hands to `create_item` or `replace_item`
(the bodies appended to the write trace) carries that entry, surviving both
system-field stripping and, when enabled, sanitisation. -/
theorem c7_partition_key_backfill
    (cfg : Config) (tPaths : List String) (st : MigState) (item0 : Dict)
    (vs : List JVal) (p : String) (v : JVal)
    (hp : p ∈ tPaths)
    (hex : getPartitionKeyValue item0 tPaths = .ok vs)
    (hval : vs.any invalidPkValue = false)
    (hmiss : dGet item0 p = none)
    (hv : traversePath (.dict item0) (pySplit p) = .ok v) :
    dGet (backfill item0 (tPaths.zip vs)) p = some v
    ∧ (∀ st', processItem cfg tPaths st item0 = .ok st' →
        ∀ b ∈ st'.writes, b ∈ st.writes ∨ dGet b p = some v) := by
  have hF := getPartitionKeyValue_forall item0 tPaths vs hex
  obtain ⟨v', hpair⟩ := mem_zip_left_of_forall₂ hF p hp
  have hv' : traversePath (.dict item0) (pySplit p) = .ok v' :=
    forall₂_zip_pair hF (p, v') hpair
  have hvv : v' = v := Except.ok.inj (hv'.symm.trans hv)
  subst hvv
  have hvmem : v' ∈ vs := (List.of_mem_zip hpair).2
  have hinv : invalidPkValue v' = false := by
    by_contra hc
    have hany : vs.any invalidPkValue = true :=
      List.any_eq_true.2 ⟨v', hvmem, by simpa using hc⟩
    rw [hany] at hval
    cases hval
  have hnd : ∀ es, v' ≠ .dict es := by
    intro es he
    subst he
    simp [invalidPkValue] at hinv
  have hna : ∀ xs, v' ≠ .arr xs := by
    intro xs he
    subst he
    simp [invalidPkValue] at hinv
  have hslash : '/' ∈ p.data := by
    by_contra hns
    rw [pySplit_no_slash p hns] at hv
    have hnull : traversePath (.dict item0) [p] = .ok .null := by
      simp [traversePath, hmiss]
    rw [hnull] at hv
    have : v' = JVal.null := (Except.ok.inj hv).symm
    subst this
    simp [invalidPkValue] at hinv
  have hsys : sysFields.contains p = false := slash_not_sys p hslash
  have hrule : ruleNames.contains (pyLower p) = false := slash_not_rule p hslash
  have hzipprop : ∀ q ∈ tPaths.zip vs, q.1 = p → q.2 = v' := by
    intro q hq hq1
    have hqt := forall₂_zip_pair hF q hq
    rw [hq1] at hqt
    exact Except.ok.inj (hqt.symm.trans hv)
  have hinzip : p ∈ (tPaths.zip vs).map Prod.fst :=
    List.mem_map.2 ⟨(p, v'), hpair, rfl⟩
  have hpart1 : dGet (backfill item0 (tPaths.zip vs)) p = some v' :=
    backfill_adds item0 _ p v' hmiss hzipprop hinzip
  refine ⟨hpart1, ?_⟩
  intro st' hok b hb
  rcases processItem_writes cfg tPaths st item0 st' hok with hsame | ⟨vs2, hex2, hcase⟩
  · exact Or.inl (hsame ▸ hb)
  · have hvs2 : vs = vs2 := Except.ok.inj (hex.symm.trans hex2)
    subst hvs2
    have hrsf : dGet (rsfEntries (backfill item0 (tPaths.zip vs))) p = some v' :=
      rsfEntries_preserves _ p v' hpart1 hsys hnd
    rcases hcase with hw | hw
    · rw [hw] at hb
      rcases List.mem_append.1 hb with hbl | hbr
      · exact Or.inl hbl
      · right
        have hbeq : b = (if cfg.sanitizeFlag then
            sanEntries cfg.gen (backfill item0 (tPaths.zip vs))
          else backfill item0 (tPaths.zip vs)) := by simpa using hbr
        rw [hbeq]
        by_cases hs : cfg.sanitizeFlag = true
        · rw [if_pos hs]
          exact sanEntries_preserves cfg.gen _ p v' hpart1 hrule hnd hna
        · rw [if_neg hs]
          exact hpart1
    · rw [hw] at hb
      rcases List.mem_append.1 hb with hbl | hbr
      · exact Or.inl hbl
      · right
        have hbeq : b = (if cfg.sanitizeFlag then
            sanEntries cfg.gen (rsfEntries (backfill item0 (tPaths.zip vs)))
          else rsfEntries (backfill item0 (tPaths.zip vs))) := by simpa using hbr
        rw [hbeq]
        by_cases hs : cfg.sanitizeFlag = true
        · rw [if_pos hs]
          exact sanEntries_preserves cfg.gen _ p v' hrsf hrule hnd hna
        · rw [if_neg hs]
          exact hrsf

/-- Witness for C7: the document whose partition key sits at the nested
path `meta/pk` gets the entry `("meta/pk", "x")` back-filled, and every
body written while processing it carries that entry. -/
theorem c7_partition_key_backfill_witness :
    dGet (backfill c7Doc (["meta/pk"].zip [.str "x"])) "meta/pk" = some (.str "x")
    ∧ (∀ st', processItem demoCfg ["meta/pk"] demoState0 c7Doc = .ok st' →
        ∀ b ∈ st'.writes, b ∈ demoState0.writes ∨ dGet b "meta/pk" = some (.str "x")) :=
  c7_partition_key_backfill demoCfg ["meta/pk"] demoState0 c7Doc
    [.str "x"] "meta/pk" (.str "x") (by simp) rfl rfl rfl rfl

end CosmosMigration
